import Mathlib

/-!
Shallow embedding of the concurrent crawl-job pipeline of
`src/app/cli/fetch_data.py` (producer / workers / aggregator around two
queues and an append-only `meta.jsonl` ledger), together with the listing
interface of `src/app/crawlers` that the producer consumes.

Machine-level effects (queue puts, file appends, image saves, log calls)
are modelled as explicit lists of messages and events, in program order.
-/

namespace FetchData

/-- The judge identifiers admitted by `Problem.oj`
(`Literal['accoding', 'atcoder', 'codeforces', 'loj', 'luogu']`). -/
inductive OJName
  | accoding | atcoder | codeforces | loj | luogu
deriving DecidableEq

/-- `Problem` dataclass (frozen): equality and hash over all three fields. -/
structure Problem where
  oj : OJName
  problem_id : String
  contest_id : Option String
deriving DecidableEq

/-- One line of `meta.jsonl` as seen by `json.loads` plus the three key
accesses in `_producer_process`: either it parses to the three task fields
or evaluating it raises. -/
inductive LedgerLine
  | good (oj : OJName) (problem_id : String) (contest_id : Option String)
  | bad
deriving DecidableEq

/-- The state of the `meta.jsonl` file at producer startup: absent
(`FileNotFoundError` branch), present with its lines, or unreadable
(`open` itself raises some other exception). -/
inductive LedgerFile
  | missing
  | present (lines : List LedgerLine)
  | unreadable
deriving DecidableEq

/-- The line-reading loop of `_producer_process` (lines 50-57): add each
parsed record to `tasks_done`; the first raising line aborts the loop with
the exception caught and logged outside it, keeping the records added so
far. -/
def loadLines : List LedgerLine → List Problem → List Problem
  | [], acc => acc
  | .good oj pid cid :: rest, acc => loadLines rest (acc ++ [⟨oj, pid, cid⟩])
  | .bad :: _, acc => acc

/-- `tasks_done` after the `try`/`except` block of `_producer_process`
(lines 48-61): missing file is touched and the set stays empty; any other
exception is logged and the records parsed before it are kept. -/
def loadLedger : LedgerFile → List Problem
  | .missing => []
  | .unreadable => []
  | .present lines => loadLines lines []

/-- One step of a judge's `fetch_problem_list` generator as observed by the
producer's `for` loop: a yielded `(problem_id, contest_id)` pair, or an
exception escaping the generator. -/
inductive ListingStep
  | item (problem_id : String) (contest_id : Option String)
  | raise
deriving DecidableEq

/-- A message observed on the report queue: `None` from a finishing worker,
an `int` progress delta from the producer, or a completed-task triple from
a worker. -/
inductive ReportMsg
  | finished
  | delta (n : Int)
  | record (p : Problem) (image_path : String) (description : String)
deriving DecidableEq

/-- The externally visible effects of `_producer_process`: the values put
on the task queue (`none` is the terminate sentinel), the values put on
the report queue, the `task_count` counter, and whether an uncaught
exception escaped the enumeration loop (killing the process before the
sentinel-pushing lines 75-76). -/
structure ProducerOut where
  taskMsgs : List (Option Problem)
  reportMsgs : List ReportMsg
  task_count : Nat
  crashed : Bool
deriving DecidableEq

/-- Body of the inner loop of `_producer_process` (lines 67-73): build the
`Problem`, and if it is not in `tasks_done`, put it on the task queue, put
`1` on the report queue and bump `task_count`. -/
def pushItem (tasks_done : List Problem) (oj : OJName) (pid : String)
    (cid : Option String) (st : ProducerOut) : ProducerOut :=
  let task : Problem := ⟨oj, pid, cid⟩
  if task ∈ tasks_done then st
  else { st with
          taskMsgs := st.taskMsgs ++ [some task],
          reportMsgs := st.reportMsgs ++ [ReportMsg.delta 1],
          task_count := st.task_count + 1 }

/-- The producer's iteration over one judge's listing: items are handled by
`pushItem`; an exception escaping the generator propagates (there is no
`try`/`except` around the loop), marking the run crashed. -/
def runJudge (tasks_done : List Problem) (oj : OJName) :
    List ListingStep → ProducerOut → ProducerOut
  | [], st => st
  | .raise :: _, st => { st with crashed := true }
  | .item pid cid :: rest, st =>
      runJudge tasks_done oj rest (pushItem tasks_done oj pid cid st)

/-- The fixed enumeration order of line 64. -/
def judgeOrder : List OJName := [.atcoder, .codeforces, .loj, .luogu, .accoding]

/-- The producer's outer loop over the judges: a crash during one judge's
enumeration aborts the whole loop (the exception is not caught anywhere in
`_producer_process`). -/
def runJudges (tasks_done : List Problem) (listings : OJName → List ListingStep) :
    List OJName → ProducerOut → ProducerOut
  | [], st => st
  | oj :: rest, st =>
      let st' := runJudge tasks_done oj (listings oj) st
      if st'.crashed then st' else runJudges tasks_done listings rest st'

/-- `_producer_process` (lines 42-77): load the ledger, enumerate the five
judges in order, then put one `None` sentinel per worker — unless an
exception escaped the enumeration, in which case the process dies before
reaching the sentinel loop. -/
def producerRun (ledger : LedgerFile) (listings : OJName → List ListingStep)
    (num_workers : Nat) : ProducerOut :=
  let tasks_done := loadLedger ledger
  let st := runJudges tasks_done listings judgeOrder ⟨[], [], 0, false⟩
  if st.crashed then st
  else { st with taskMsgs := st.taskMsgs ++ List.replicate num_workers none }

/-- One record of `meta.jsonl` as written by the aggregator (lines
213-219): the exact five keys of the serialized dict. -/
structure Record where
  oj : OJName
  contest_id : Option String
  problem_id : String
  image_path : String
  description : String
deriving DecidableEq

/-- `json.dumps` of a record dict followed by `json.loads` of that line in
a later run: serialization of a well-formed record always re-parses to its
three task fields. -/
def Record.toLine (r : Record) : LedgerLine := .good r.oj r.problem_id r.contest_id

/-- The dedup key of a record: its three task fields. -/
def Record.task (r : Record) : Problem := ⟨r.oj, r.problem_id, r.contest_id⟩

/-- State of the aggregation loop of `fetch_data` (lines 203-221): the
lines appended to `meta.jsonl` so far (in order), the live progress total,
the advance count, and the finished-worker counter. -/
structure AggState where
  ledger : List Record
  total : Int
  completed : Nat
  finished_count : Nat
deriving DecidableEq

/-- The initial aggregator state: empty ledger append run, zero counters. -/
def aggInit : AggState := ⟨[], 0, 0, 0⟩

/-- One iteration body of the aggregation loop (lines 205-221): `None`
bumps `finished_count`; an `int` is added to the progress total; any other
message is a completed triple whose record dict is serialized and appended
to `meta.jsonl`, advancing the progress counter. -/
def aggStep (st : AggState) : ReportMsg → AggState
  | .finished => { st with finished_count := st.finished_count + 1 }
  | .delta n => { st with total := st.total + n }
  | .record p ip d =>
      { st with
          ledger := st.ledger ++ [⟨p.oj, p.contest_id, p.problem_id, ip, d⟩],
          completed := st.completed + 1 }

/-- The aggregation loop (`while finished_count < num_workers`): returns
the final state and the unconsumed report messages, or `none` when the
modelled message stream runs out while the loop still waits (a blocking
`get` with no further senders). -/
def aggRun (num_workers : Nat) : List ReportMsg → AggState → Option (AggState × List ReportMsg)
  | [], st => if st.finished_count < num_workers then none else some (st, [])
  | m :: rest, st =>
      if st.finished_count < num_workers then aggRun num_workers rest (aggStep st m)
      else some (st, m :: rest)

/-- Number of terminate sentinels among the task-queue messages. -/
def countSentinels (ms : List (Option Problem)) : Nat :=
  ms.countP fun m => m.isNone

/-- Number of worker-finished sentinels among report messages. -/
def countFinished (ms : List ReportMsg) : Nat :=
  ms.countP fun m => match m with | .finished => true | _ => false

/-- Number of completed-task records among report messages. -/
def countRecords (ms : List ReportMsg) : Nat :=
  ms.countP fun m => match m with | .record _ _ _ => true | _ => false

/-! ### Worker model (`_worker_process`, lines 79-153) -/

/-- `RESTART_LOOPS` (line 27). -/
def RESTART_LOOPS : Nat := 100

/-- Pillow quantization methods (`Image.Quantize`). -/
inductive QuantMethod
  | mediancut | maxcoverage | fastoctree | libimagequant
deriving DecidableEq

/-- Pillow dithering modes (`Image.Dither`); `nodither` is `Dither.NONE`. -/
inductive DitherMode
  | nodither | ordered | rasterize | floydsteinberg
deriving DecidableEq

/-- A Pillow image value as built by `_process_one`: the raw screenshot
returned by `crawl_problem` (abstracted by a tag), a `.convert('RGB')` of
an image, or a `.quantize(colors, method, dither)` of an image. -/
inductive PImage
  | raw (data : Nat)
  | rgb (img : PImage)
  | quantized (img : PImage) (colors : Nat) (method : QuantMethod) (dither : DitherMode)
deriving DecidableEq

/-- Outcome of one `task_queue.get()` call in the worker: a value (a task,
or the `None` sentinel), or the `get` itself raising. -/
inductive RecvOutcome
  | ok (m : Option Problem)
  | err
deriving DecidableEq

/-- Outcome of one `crawl_problem` call (the external Extractor): a raw
screenshot (abstracted by a tag) with the raw description markup, or an
extraction failure. -/
inductive ExtractOutcome
  | ok (data : Nat) (description : String)
  | err
deriving DecidableEq

/-- Observable events of one worker process, in program order. -/
inductive WEvent
  | launched_ok
  | launch_failed
  | slept
  | saved (fname : String) (img : PImage)
  | reported (m : ReportMsg)
  | task_failed (p : Problem)
  | restarting
deriving DecidableEq

/-- The worker's environment: the Extractor behaviour, the
`format_markdown` normalizer (external library code), and the
`uuid.uuid1().hex` supply, one fresh name per successful extraction. -/
structure WorkerEnv where
  extract : Problem → ExtractOutcome
  fmtMd : String → String
  names : Nat → String

/-- The success path of `_process_one` (lines 101-110) on task `p` with a
fresh name index `idx`: quantize the RGB-converted screenshot to 256
colors with `FASTOCTREE` and no dithering, normalize the description,
save the image as `<uuid>.png` under `images/`, then put the completed
triple (with path `images/<uuid>.png`) on the report queue. -/
def successEvents (env : WorkerEnv) (idx : Nat) (p : Problem)
    (data : Nat) (desc : String) : List WEvent :=
  let img := PImage.quantized (PImage.rgb (PImage.raw data)) 256 .fastoctree .nodither
  let fname := env.names idx ++ ".png"
  [WEvent.saved fname img,
   WEvent.reported (ReportMsg.record p ("images/" ++ fname) (env.fmtMd desc))]

/-- Result of the `for _ in range(RESTART_LOOPS)` loop (lines 136-151):
the worker returned after a sentinel (carrying the unconsumed receive
outcomes), the modelled receive stream ran out while the worker still
blocks on `get`, or the loop count was exhausted and the browser is about
to be restarted. -/
inductive InnerResult
  | finished (events : List WEvent) (recvs : List RecvOutcome)
  | blocked (events : List WEvent)
  | loops_done (events : List WEvent) (recvs : List RecvOutcome) (idx : Nat)

/-- The inner task loop: each iteration receives once; a raising `get` is
logged and slept over (`continue` — it still consumes a loop iteration); a
`None` puts the worker-finished sentinel on the report queue and returns;
a task runs `_process_one` with its failure caught and logged. -/
def innerLoop (env : WorkerEnv) :
    Nat → List RecvOutcome → Nat → List WEvent → InnerResult
  | 0, recvs, idx, evs => .loops_done (evs ++ [WEvent.restarting]) recvs idx
  | _ + 1, [], _, evs => .blocked evs
  | k + 1, .err :: rest, idx, evs =>
      innerLoop env k rest idx (evs ++ [WEvent.slept])
  | _ + 1, .ok none :: rest, _, evs =>
      .finished (evs ++ [WEvent.reported ReportMsg.finished]) rest
  | k + 1, .ok (some p) :: rest, idx, evs =>
      match env.extract p with
      | .err => innerLoop env k rest idx (evs ++ [WEvent.task_failed p])
      | .ok data desc =>
          innerLoop env k rest (idx + 1) (evs ++ successEvents env idx p data desc)

/-- Result of a whole worker run: returned normally, or blocked inside the
modelled horizon (launch or receive outcomes exhausted). -/
inductive WorkerResult
  | finished (events : List WEvent) (recvs : List RecvOutcome)
  | blocked (events : List WEvent)
deriving DecidableEq

/-- The `while True` session loop (lines 114-153): each iteration attempts
one browser launch; a failing launch is logged and retried immediately
(`continue`, no sleep); a successful launch runs the inner loop, and
reaching the restart limit tears the session down and loops back. -/
def outerLoop (env : WorkerEnv) :
    List Bool → List RecvOutcome → Nat → List WEvent → WorkerResult
  | [], _, _, evs => .blocked evs
  | false :: rest, recvs, idx, evs =>
      outerLoop env rest recvs idx (evs ++ [WEvent.launch_failed])
  | true :: rest, recvs, idx, evs =>
      match innerLoop env RESTART_LOOPS recvs idx (evs ++ [WEvent.launched_ok]) with
      | .finished evs' recvs' => .finished evs' recvs'
      | .blocked evs' => .blocked evs'
      | .loops_done evs' recvs' idx' => outerLoop env rest recvs' idx' evs'

/-- `_worker_process` run against a finite horizon of launch outcomes and
receive outcomes. -/
def workerRun (env : WorkerEnv) (launches : List Bool)
    (recvs : List RecvOutcome) : WorkerResult :=
  outerLoop env launches recvs 0 []

/-- The events of a worker result. -/
def WorkerResult.events : WorkerResult → List WEvent
  | .finished evs _ => evs
  | .blocked evs => evs

/-- The report-queue messages among a worker's events, in put order. -/
def reportsOf (evs : List WEvent) : List ReportMsg :=
  evs.filterMap fun e => match e with | .reported m => some m | _ => none

/-- Number of successful browser launches among a worker's events. -/
def launchedCount (evs : List WEvent) : Nat :=
  evs.countP fun e => match e with | .launched_ok => true | _ => false

/-- Number of browser restarts (restart-limit teardowns) among a worker's
events. -/
def restartCount (evs : List WEvent) : Nat :=
  evs.countP fun e => match e with | .restarting => true | _ => false

/-- The filenames saved under `images/` among a worker's events. -/
def savedNames (evs : List WEvent) : List String :=
  evs.filterMap fun e => match e with | .saved fname _ => some fname | _ => none

/-! ### The codeforces listing generator (`src/app/crawlers/codeforces.py`,
`fetch_problem_list`, lines 127-149) -/

namespace Codeforces

/-- One entry of `resp.json()['result']['problems']`: either both the
`contestId` and `index` keys are present, or accessing the entry raises
(e.g. `KeyError`) in the middle of the generator's loop. -/
inductive CFEntry
  | good (contestId : Nat) (index : String)
  | malformed
deriving DecidableEq

/-- Outcome of the `request_retry` call plus JSON decoding: all ten
retries exhausted (`resp is None`), or a decoded entry list. -/
inductive CFResponse
  | failed
  | ok (entries : List CFEntry)
deriving DecidableEq

/-- The yield loop of `fetch_problem_list` (lines 146-149):
`contest_id = str(problem_info['contestId'])`,
`problem_id = contest_id + problem_info['index']`; a malformed entry makes
the generator raise after the pairs already yielded. -/
def problemSteps : List CFEntry → List ListingStep
  | [] => []
  | .good cid idx :: rest =>
      ListingStep.item (toString cid ++ idx) (some (toString cid)) :: problemSteps rest
  | .malformed :: _ => [ListingStep.raise]

/-- `fetch_problem_list` as the sequence of generator steps the producer
observes: retry exhaustion is logged (line 144) and yields nothing; a
successful response yields its entries. -/
def fetch_problem_list : CFResponse → List ListingStep
  | .failed => []
  | .ok entries => problemSteps entries

end Codeforces

/-! ### Characterization of the producer -/

/-- The `if task not in tasks_done` test of line 70, as a Boolean
predicate. -/
def notDone (tasks_done : List Problem) (t : Problem) : Bool :=
  decide (t ∉ tasks_done)

/-- The problems a judge's generator yields before it either ends or
raises. -/
def yields (oj : OJName) : List ListingStep → List Problem
  | [] => []
  | .item pid cid :: rest => ⟨oj, pid, cid⟩ :: yields oj rest
  | .raise :: _ => []

/-- Whether a judge's generator raises before ending. -/
def raises : List ListingStep → Bool
  | [] => false
  | .item _ _ :: rest => raises rest
  | .raise :: _ => true

/-- Appending a batch of enqueued tasks (with their progress deltas) to a
producer state, with a final crash flag. -/
def appendOut (st : ProducerOut) (ts : List Problem) (c : Bool) : ProducerOut :=
  { taskMsgs := st.taskMsgs ++ ts.map some,
    reportMsgs := st.reportMsgs ++ List.replicate ts.length (ReportMsg.delta 1),
    task_count := st.task_count + ts.length,
    crashed := c }

/-- The problems actually enumerated by the producer's loop: a raising
judge contributes its yields and ends the whole enumeration. -/
def enumerated (listings : OJName → List ListingStep) : List OJName → List Problem
  | [] => []
  | oj :: rest =>
      if raises (listings oj) then yields oj (listings oj)
      else yields oj (listings oj) ++ enumerated listings rest

/-- Whether some judge's generator raises, killing the producer. -/
def crashes (listings : OJName → List ListingStep) (ojs : List OJName) : Bool :=
  ojs.any fun oj => raises (listings oj)

/-- The tasks a producer run pushes onto the task queue, in order. -/
def producedTasks (ledger : LedgerFile) (listings : OJName → List ListingStep) :
    List Problem :=
  (enumerated listings judgeOrder).filter (notDone (loadLedger ledger))

/-- The task a well-formed ledger line parses to. -/
def lineTask : LedgerLine → Option Problem
  | .good oj pid cid => some ⟨oj, pid, cid⟩
  | .bad => none

/-- Concrete listings whose codeforces generator raises partway: one good
entry, then a malformed one (`KeyError` in the yield loop). -/
def c1Listings : OJName → List ListingStep := fun oj =>
  match oj with
  | .atcoder => [ListingStep.item "abc001_a" (some "abc001")]
  | .codeforces => Codeforces.fetch_problem_list (.ok [.good 1 "A", .malformed])
  | .loj => [ListingStep.item "100" none]
  | _ => []

/-- Concrete listings in which codeforces fails only in the handled way
(retry exhaustion), so no generator raises. -/
def c1ListingsHandled : OJName → List ListingStep := fun oj =>
  match oj with
  | .atcoder => [ListingStep.item "abc001_a" (some "abc001")]
  | .codeforces => Codeforces.fetch_problem_list .failed
  | .loj => [ListingStep.item "100" none]
  | _ => []

/-- Ledger with one well-formed line followed by one unparsable line. -/
def c3Lines : List LedgerLine :=
  [LedgerLine.good .atcoder "abc001_a" (some "abc001"), LedgerLine.bad]

/-- A listing that relists exactly the task recorded on the well-formed
line. -/
def c3Listings : OJName → List ListingStep := fun oj =>
  match oj with
  | .atcoder => [ListingStep.item "abc001_a" (some "abc001")]
  | _ => []

/-- Number of worker-finished sentinels a worker put on the report queue. -/
def finRepCount (evs : List WEvent) : Nat :=
  evs.countP fun e => match e with
    | .reported ReportMsg.finished => true
    | _ => false

/-- The full event trace of a one-worker run over tasks `[A, B, C]` whose
extraction fails exactly on `B`. -/
def scenarioEvents (env : WorkerEnv) (A B C : Problem) (dA dC : Nat)
    (sA sC : String) : List WEvent :=
  [WEvent.launched_ok] ++ successEvents env 0 A dA sA ++
    [WEvent.task_failed B] ++ successEvents env 1 C dC sC ++
    [WEvent.reported ReportMsg.finished]

/-- Prepend a block of already-emitted events to an inner-loop result. -/
def InnerResult.prepend (pre : List WEvent) : InnerResult → InnerResult
  | .finished evs rest => .finished (pre ++ evs) rest
  | .blocked evs => .blocked (pre ++ evs)
  | .loops_done evs rest idx => .loops_done (pre ++ evs) rest idx

/-- Prepend a block of already-emitted events to a worker result. -/
def WorkerResult.prepend (pre : List WEvent) : WorkerResult → WorkerResult
  | .finished evs rest => .finished (pre ++ evs) rest
  | .blocked evs => .blocked (pre ++ evs)

/-- The filenames assigned to `k` consecutive successful extractions
starting at name index `idx`. -/
def nameSeq (env : WorkerEnv) (idx k : Nat) : List String :=
  (List.range' idx k).map (fun i => env.names i ++ ".png")

/-- The invariant tying an inner-loop result's saved filenames to the name
indices it consumed. -/
def savedOK (env : WorkerEnv) (idx : Nat) (evs : List WEvent) : InnerResult → Prop
  | .finished evs' _ => ∃ k, savedNames evs' = savedNames evs ++ nameSeq env idx k
  | .blocked evs' => ∃ k, savedNames evs' = savedNames evs ++ nameSeq env idx k
  | .loops_done evs' _ idx' =>
      ∃ k, idx' = idx + k ∧ savedNames evs' = savedNames evs ++ nameSeq env idx k

/-- The run-level counterpart of `savedOK`. -/
def savedOKW (env : WorkerEnv) (idx : Nat) (evs : List WEvent) :
    WorkerResult → Prop
  | .finished evs' _ => ∃ k, savedNames evs' = savedNames evs ++ nameSeq env idx k
  | .blocked evs' => ∃ k, savedNames evs' = savedNames evs ++ nameSeq env idx k

/-- Every completed record reported by a worker is preceded, in that
worker's own event order, by the save of the image file its relative path
names. -/
def savedBeforeReported (evs : List WEvent) : Prop :=
  ∀ (i : Nat) (p : Problem) (ip dsc : String),
    evs[i]? = some (WEvent.reported (ReportMsg.record p ip dsc)) →
    ∃ (j : Nat) (fname : String) (img : PImage), j < i ∧
      evs[j]? = some (WEvent.saved fname img) ∧ ip = "images/" ++ fname

/-- A concrete atcoder problem used in concrete instantiations. -/
def pA : Problem := ⟨.atcoder, "abc001_a", some "abc001"⟩

/-- A concrete codeforces problem used in concrete instantiations. -/
def pB : Problem := ⟨.codeforces, "1A", some "1"⟩

/-- A concrete loj problem used in concrete instantiations. -/
def pC : Problem := ⟨.loj, "100", none⟩

/-- A concrete worker environment: extraction always succeeds, markdown
normalization is the identity, and the name supply is injective. -/
def witEnv : WorkerEnv :=
  ⟨fun _ => ExtractOutcome.ok 0 "", fun s => s,
   fun i => String.mk (List.replicate i 'a')⟩

/-- A concrete worker environment whose extraction fails exactly on `pB`. -/
def failBEnv : WorkerEnv :=
  ⟨fun p => if p = pB then ExtractOutcome.err else ExtractOutcome.ok 0 "",
   fun s => s, fun i => String.mk (List.replicate i 'a')⟩

lemma appendOut_nil (st : ProducerOut) (h : st.crashed = false) :
    appendOut st [] false = st := by
  cases st
  simp_all [appendOut]

lemma appendOut_appendOut (st : ProducerOut) (l l' : List Problem) (c c' : Bool) :
    appendOut (appendOut st l c) l' c' = appendOut st (l ++ l') c' := by
  cases st
  simp only [appendOut, List.map_append, List.length_append, List.replicate_add,
    List.append_assoc, ProducerOut.mk.injEq]
  exact ⟨trivial, trivial, by omega, trivial⟩

lemma runJudge_spec (tasks_done : List Problem) (oj : OJName) :
    ∀ steps st, st.crashed = false →
      runJudge tasks_done oj steps st =
        appendOut st ((yields oj steps).filter (notDone tasks_done)) (raises steps)
  | [], st, h => by
      simp [runJudge, yields, raises, appendOut_nil st h]
  | .raise :: rest, st, h => by
      cases st
      simp_all [runJudge, yields, raises, appendOut]
  | .item pid cid :: rest, st, h => by
      have hcr : (pushItem tasks_done oj pid cid st).crashed = false := by
        by_cases hmem : (⟨oj, pid, cid⟩ : Problem) ∈ tasks_done <;>
          simp [pushItem, hmem, h]
      rw [runJudge, runJudge_spec tasks_done oj rest _ hcr]
      by_cases hmem : (⟨oj, pid, cid⟩ : Problem) ∈ tasks_done
      · simp [pushItem, hmem, yields, raises, List.filter_cons, notDone]
      · have hfc : (yields oj (ListingStep.item pid cid :: rest)).filter (notDone tasks_done)
            = (⟨oj, pid, cid⟩ : Problem) :: (yields oj rest).filter (notDone tasks_done) := by
          simp [yields, List.filter_cons, notDone, hmem]
        rw [hfc]
        cases st
        simp only [pushItem, hmem, if_neg, not_false_iff, appendOut, List.map_cons,
          List.length_cons, List.replicate_succ, List.append_assoc, List.cons_append,
          List.nil_append, List.singleton_append, ProducerOut.mk.injEq]
        exact ⟨trivial, trivial, by omega, rfl⟩

lemma runJudges_spec (tasks_done : List Problem) (listings : OJName → List ListingStep) :
    ∀ ojs st, st.crashed = false →
      runJudges tasks_done listings ojs st =
        appendOut st ((enumerated listings ojs).filter (notDone tasks_done))
          (crashes listings ojs)
  | [], st, h => by
      simp [runJudges, enumerated, crashes, appendOut_nil st h]
  | oj :: rest, st, h => by
      rw [runJudges, runJudge_spec tasks_done oj (listings oj) st h]
      cases hra : raises (listings oj)
      · have hcr : (appendOut st ((yields oj (listings oj)).filter (notDone tasks_done))
            false).crashed = false := rfl
        simp only [appendOut, hra]
        simp only [appendOut] at hcr
        rw [if_neg (by simp)]
        rw [runJudges_spec tasks_done listings rest _ (by simp [appendOut])]
        have := appendOut_appendOut st ((yields oj (listings oj)).filter (notDone tasks_done))
          ((enumerated listings rest).filter (notDone tasks_done)) false
          (crashes listings rest)
        simp only [appendOut] at this ⊢
        rw [this]
        simp [enumerated, hra, crashes, List.filter_append]
      · simp only [appendOut, hra, if_pos]
        simp [enumerated, hra, crashes, appendOut]

/-- Full characterization of `_producer_process`: the task queue receives
the enumerated-and-not-done tasks in order, followed by one sentinel per
worker unless a listing exception killed the process; the report queue
receives one `+1` delta per enqueued task. -/
theorem producerRun_spec (ledger : LedgerFile) (listings : OJName → List ListingStep)
    (n : Nat) :
    producerRun ledger listings n =
      { taskMsgs := (producedTasks ledger listings).map some ++
          (if crashes listings judgeOrder then [] else List.replicate n none),
        reportMsgs := List.replicate (producedTasks ledger listings).length
          (ReportMsg.delta 1),
        task_count := (producedTasks ledger listings).length,
        crashed := crashes listings judgeOrder } := by
  have h := runJudges_spec (loadLedger ledger) listings judgeOrder ⟨[], [], 0, false⟩ rfl
  simp only [producerRun, h]
  cases hc : crashes listings judgeOrder <;>
    simp [appendOut, producedTasks, hc]

lemma producerRun_pushed_not_done (ledger : LedgerFile)
    (listings : OJName → List ListingStep) (n : Nat) (t : Problem) :
    some t ∈ (producerRun ledger listings n).taskMsgs → t ∉ loadLedger ledger := by
  intro hmem
  rw [producerRun_spec] at hmem
  simp only [List.mem_append] at hmem
  rcases hmem with hmem | hmem
  · rcases List.mem_map.mp hmem with ⟨u, hu, he⟩
    cases he
    have := List.of_mem_filter hu
    simpa [notDone] using this
  · rcases hc : crashes listings judgeOrder <;> rw [hc] at hmem <;> simp_all

/-! ### Claims about the producer and the ledger -/

lemma loadLines_no_bad (suf : List LedgerLine) :
    ∀ pre acc, LedgerLine.bad ∉ pre →
      loadLines (pre ++ LedgerLine.bad :: suf) acc = acc ++ pre.filterMap lineTask := by
  intro pre
  induction pre with
  | nil => intro acc _; simp [loadLines]
  | cons l rest ih =>
      intro acc h
      cases l with
      | good oj pid cid =>
          rw [List.cons_append, loadLines, ih _ (by simp_all)]
          simp [lineTask]
      | bad => simp at h

lemma loadLines_all_good :
    ∀ lines acc, LedgerLine.bad ∉ lines →
      loadLines lines acc = acc ++ lines.filterMap lineTask := by
  intro lines
  induction lines with
  | nil => intro acc _; simp [loadLines]
  | cons l rest ih =>
      intro acc h
      cases l with
      | good oj pid cid =>
          rw [loadLines, ih _ (by simp_all)]
          simp [lineTask]
      | bad => simp at h

lemma loadLedger_of_records (rs : List Record) :
    loadLedger (.present (rs.map Record.toLine)) = rs.map Record.task := by
  rw [loadLedger, loadLines_all_good]
  · simp only [List.nil_append]
    induction rs with
    | nil => rfl
    | cons r rest ih => simp_all [lineTask, Record.toLine, Record.task]
  · intro hbad
    rcases List.mem_map.mp hbad with ⟨r, _, he⟩
    simp [Record.toLine] at he

/-- C1: the claim fails on the code. With the codeforces listing raising
partway through its enumeration (after yielding problem 1A), the producer
does enqueue 1A, but the subsequent judge `loj` is never enumerated and
not a single terminate-sentinel is pushed — the uncaught exception kills
`_producer_process` before lines 75-76. -/
theorem C1_counterexample :
    some (⟨.codeforces, "1A", some "1"⟩ : Problem) ∈
        (producerRun .missing c1Listings 2).taskMsgs ∧
    some (⟨.loj, "100", none⟩ : Problem) ∉
        (producerRun .missing c1Listings 2).taskMsgs ∧
    countSentinels (producerRun .missing c1Listings 2).taskMsgs = 0 := by
  decide

/-- C1 (amended): a listing failure handled inside the crawler (retry
exhaustion) yields nothing and does not raise, and when no judge's
generator raises the producer enumerates every judge and pushes exactly
one sentinel per worker after all tasks; but an exception escaping a
generator crashes the producer: the pushed tasks keep their places, and no
sentinel is ever pushed. -/
theorem C1_listing_failure (ledger : LedgerFile)
    (listings : OJName → List ListingStep) (n : Nat) :
    (Codeforces.fetch_problem_list .failed = [] ∧
      raises (Codeforces.fetch_problem_list .failed) = false) ∧
    ((∀ oj, raises (listings oj) = false) →
      (producerRun ledger listings n).crashed = false ∧
      (producerRun ledger listings n).taskMsgs =
        (producedTasks ledger listings).map some ++ List.replicate n none ∧
      countSentinels (producerRun ledger listings n).taskMsgs = n) ∧
    (crashes listings judgeOrder = true →
      (producerRun ledger listings n).crashed = true ∧
      (producerRun ledger listings n).taskMsgs =
        (producedTasks ledger listings).map some ∧
      countSentinels (producerRun ledger listings n).taskMsgs = 0) := by
  refine ⟨⟨rfl, rfl⟩, ?_, ?_⟩
  · intro h
    have hc : crashes listings judgeOrder = false := by
      simp only [crashes, List.any_eq_false]
      intro oj _
      simp [h oj]
    rw [producerRun_spec]
    refine ⟨by simp [hc], by simp [hc], ?_⟩
    simp [hc, countSentinels, List.countP_replicate, Function.comp_def]
  · intro hc
    rw [producerRun_spec]
    refine ⟨by simp [hc], by simp [hc], ?_⟩
    simp [hc, countSentinels, Function.comp_def]

/-- C1 witness: both branches of the amended statement at concrete
listings. -/
theorem C1_listing_failure_witness :
    ((producerRun .missing c1ListingsHandled 2).crashed = false ∧
      (producerRun .missing c1ListingsHandled 2).taskMsgs =
        (producedTasks .missing c1ListingsHandled).map some ++ List.replicate 2 none ∧
      countSentinels (producerRun .missing c1ListingsHandled 2).taskMsgs = 2) ∧
    ((producerRun .missing c1Listings 2).crashed = true ∧
      (producerRun .missing c1Listings 2).taskMsgs =
        (producedTasks .missing c1Listings).map some ∧
      countSentinels (producerRun .missing c1Listings 2).taskMsgs = 0) :=
  ⟨(C1_listing_failure .missing c1ListingsHandled 2).2.1
      (by intro oj; cases oj <;> rfl),
   (C1_listing_failure .missing c1Listings 2).2.2 (by decide)⟩

/-- C3: the claim fails on the code. After a parse error on the second
ledger line, the dedup set is not empty: it holds the record parsed from
the first line, and the producer filters against it (the relisted task is
not enqueued, unlike under a genuinely empty ledger). -/
theorem C3_counterexample :
    loadLedger (.present c3Lines) ≠ [] ∧
    some (⟨.atcoder, "abc001_a", some "abc001"⟩ : Problem) ∉
        (producerRun (.present c3Lines) c3Listings 1).taskMsgs ∧
    some (⟨.atcoder, "abc001_a", some "abc001"⟩ : Problem) ∈
        (producerRun .missing c3Listings 1).taskMsgs := by
  decide

/-- C3 (amended): a missing ledger file is created empty and the dedup set
is empty; a failure to open the file leaves the dedup set empty; a failure
to parse some line keeps exactly the records of the lines parsed before
it. -/
theorem C3_ledger_load (pre suf : List LedgerLine) (h : LedgerLine.bad ∉ pre) :
    loadLedger .missing = [] ∧
    loadLedger .unreadable = [] ∧
    loadLedger (.present (pre ++ LedgerLine.bad :: suf)) = pre.filterMap lineTask := by
  refine ⟨rfl, rfl, ?_⟩
  rw [loadLedger, loadLines_no_bad suf pre [] h]
  simp

lemma count_filter_notDone (tasks_done : List Problem) (l : List Problem)
    (t : Problem) :
    (l.filter (notDone tasks_done)).count t =
      if t ∈ tasks_done then 0 else l.count t := by
  by_cases hmem : t ∈ tasks_done
  · rw [if_pos hmem, List.count_eq_zero]
    intro hin
    have := List.of_mem_filter hin
    simp [notDone, hmem] at this
  · rw [if_neg hmem, List.count_filter]
    simp [notDone, hmem]

/-- C5: a listed identifier whose task is in the dedup set loaded from the
ledger is never enqueued; one whose task is not gets exactly one task-queue
entry per listed occurrence; every enqueued task is matched by exactly one
`+1` progress delta; and re-running against an unchanged corpus with a
non-empty ledger enqueues zero tasks already present in the ledger. -/
theorem C5_dedup_filter (ledger : LedgerFile) (listings : OJName → List ListingStep)
    (n : Nat) :
    (∀ t : Problem, (producerRun ledger listings n).taskMsgs.count (some t) =
        if t ∈ loadLedger ledger then 0
        else (enumerated listings judgeOrder).count t) ∧
    (producerRun ledger listings n).reportMsgs =
      List.replicate (producedTasks ledger listings).length (ReportMsg.delta 1) ∧
    (∀ t ∈ loadLedger ledger, some t ∉ (producerRun ledger listings n).taskMsgs) := by
  have count_map_some : ∀ (l : List Problem) (t : Problem),
      (l.map some).count (some t) = l.count t := by
    intro l t
    induction l with
    | nil => rfl
    | cons a l ih => simp [List.count_cons, ih, beq_iff_eq]
  refine ⟨?_, ?_, ?_⟩
  · intro t
    rw [producerRun_spec]
    simp only [List.count_append]
    have h1 : ((producedTasks ledger listings).map some).count (some t) =
        (producedTasks ledger listings).count t := count_map_some _ t
    have h2 : (if crashes listings judgeOrder then [] else
        List.replicate n (none : Option Problem)).count (some t) = 0 := by
      cases crashes listings judgeOrder <;>
        simp [List.count_replicate]
    rw [h1, h2, Nat.add_zero, producedTasks, count_filter_notDone]
  · rw [producerRun_spec]
  · intro t ht hmem
    exact producerRun_pushed_not_done ledger listings n t hmem ht

/-- C2: each completed record is appended to `meta.jsonl` in the same
aggregation step that receives it; after handling any prefix of report
messages the file holds exactly one well-formed line per record handled
(a crash at that point loses nothing already written); and a subsequent
run's producer enqueues none of the recorded tasks. -/
theorem C2_ledger_crash_safety (msgs : List ReportMsg)
    (listings : OJName → List ListingStep) (n : Nat) :
    (∀ st p ip d, (aggStep st (ReportMsg.record p ip d)).ledger =
        st.ledger ++ [⟨p.oj, p.contest_id, p.problem_id, ip, d⟩]) ∧
    (msgs.foldl aggStep aggInit).ledger.length = countRecords msgs ∧
    (∀ r ∈ (msgs.foldl aggStep aggInit).ledger, Record.toLine r ≠ LedgerLine.bad) ∧
    (∀ t ∈ (msgs.foldl aggStep aggInit).ledger.map Record.task,
        some t ∉ (producerRun
          (.present ((msgs.foldl aggStep aggInit).ledger.map Record.toLine))
          listings n).taskMsgs) := by
  have hlen : ∀ ms : List ReportMsg, ∀ st : AggState,
      (ms.foldl aggStep st).ledger.length = st.ledger.length + countRecords ms := by
    intro ms
    induction ms with
    | nil => intro st; simp [countRecords]
    | cons m rest ih =>
        intro st
        rw [List.foldl_cons, ih]
        cases m <;> (simp [aggStep, countRecords, List.countP_cons]; try omega)
  refine ⟨fun st p ip d => rfl, ?_, ?_, ?_⟩
  · rw [hlen]
    simp [aggInit]
  · intro r _
    simp [Record.toLine]
  · intro t ht hmem
    have hload := loadLedger_of_records ((msgs.foldl aggStep aggInit).ledger)
    have := producerRun_pushed_not_done _ listings n t hmem
    rw [hload] at this
    exact this ht

/-! ### The sentinel protocol -/

lemma finRepCount_append (evs evs' : List WEvent) :
    finRepCount (evs ++ evs') = finRepCount evs + finRepCount evs' := by
  simp [finRepCount]

lemma finRepCount_successEvents (env : WorkerEnv) (idx : Nat) (p : Problem)
    (data : Nat) (desc : String) :
    finRepCount (successEvents env idx p data desc) = 0 := by
  simp [finRepCount, successEvents]

lemma innerLoop_loops_done (env : WorkerEnv) :
    ∀ fuel recvs idx evs evs' rest idx',
      innerLoop env fuel recvs idx evs = .loops_done evs' rest idx' →
      ∃ pre, recvs = pre ++ rest ∧ RecvOutcome.ok none ∉ pre ∧
        finRepCount evs' = finRepCount evs := by
  intro fuel
  induction fuel with
  | zero =>
      intro recvs idx evs evs' rest idx' h
      rw [innerLoop] at h
      cases h
      exact ⟨[], rfl, by simp, by simp [finRepCount_append, finRepCount]⟩
  | succ k ih =>
      intro recvs idx evs evs' rest idx' h
      match recvs with
      | [] => rw [innerLoop] at h; cases h
      | RecvOutcome.err :: rs =>
          rw [innerLoop] at h
          obtain ⟨pre, hpre, hnot, hcnt⟩ := ih rs idx _ evs' rest idx' h
          refine ⟨RecvOutcome.err :: pre, by simp [hpre], by simp [hnot], ?_⟩
          rw [hcnt, finRepCount_append]
          simp [finRepCount]
      | RecvOutcome.ok none :: rs => rw [innerLoop] at h; cases h
      | RecvOutcome.ok (some p) :: rs =>
          rw [innerLoop] at h
          cases hx : env.extract p with
          | err =>
              rw [hx] at h
              obtain ⟨pre, hpre, hnot, hcnt⟩ := ih rs idx _ evs' rest idx' h
              refine ⟨RecvOutcome.ok (some p) :: pre, by simp [hpre], by simp [hnot], ?_⟩
              rw [hcnt, finRepCount_append]
              simp [finRepCount]
          | ok data desc =>
              rw [hx] at h
              obtain ⟨pre, hpre, hnot, hcnt⟩ := ih rs (idx + 1) _ evs' rest idx' h
              refine ⟨RecvOutcome.ok (some p) :: pre, by simp [hpre], by simp [hnot], ?_⟩
              rw [hcnt, finRepCount_append, finRepCount_successEvents]
              omega

lemma innerLoop_finished (env : WorkerEnv) :
    ∀ fuel recvs idx evs evs' rest,
      innerLoop env fuel recvs idx evs = .finished evs' rest →
      ∃ pre, recvs = pre ++ RecvOutcome.ok none :: rest ∧
        RecvOutcome.ok none ∉ pre ∧
        finRepCount evs' = finRepCount evs + 1 ∧
        evs'.getLast? = some (WEvent.reported ReportMsg.finished) := by
  intro fuel
  induction fuel with
  | zero =>
      intro recvs idx evs evs' rest h
      rw [innerLoop] at h
      cases h
  | succ k ih =>
      intro recvs idx evs evs' rest h
      match recvs with
      | [] => rw [innerLoop] at h; cases h
      | RecvOutcome.err :: rs =>
          rw [innerLoop] at h
          obtain ⟨pre, hpre, hnot, hcnt, hlast⟩ := ih rs idx _ evs' rest h
          refine ⟨RecvOutcome.err :: pre, by simp [hpre], by simp [hnot], ?_, hlast⟩
          rw [hcnt, finRepCount_append]
          simp [finRepCount]
      | RecvOutcome.ok none :: rs =>
          rw [innerLoop] at h
          cases h
          refine ⟨[], by simp, by simp, ?_, ?_⟩
          · rw [finRepCount_append]
            simp [finRepCount]
          · simp
      | RecvOutcome.ok (some p) :: rs =>
          rw [innerLoop] at h
          cases hx : env.extract p with
          | err =>
              rw [hx] at h
              obtain ⟨pre, hpre, hnot, hcnt, hlast⟩ := ih rs idx _ evs' rest h
              refine ⟨RecvOutcome.ok (some p) :: pre, by simp [hpre], by simp [hnot], ?_, hlast⟩
              rw [hcnt, finRepCount_append]
              simp [finRepCount]
          | ok data desc =>
              rw [hx] at h
              obtain ⟨pre, hpre, hnot, hcnt, hlast⟩ := ih rs (idx + 1) _ evs' rest h
              refine ⟨RecvOutcome.ok (some p) :: pre, by simp [hpre], by simp [hnot], ?_, hlast⟩
              rw [hcnt, finRepCount_append, finRepCount_successEvents]

lemma outerLoop_finished (env : WorkerEnv) :
    ∀ launches recvs idx evs evs' rest,
      outerLoop env launches recvs idx evs = .finished evs' rest →
      ∃ pre, recvs = pre ++ RecvOutcome.ok none :: rest ∧
        RecvOutcome.ok none ∉ pre ∧
        finRepCount evs' = finRepCount evs + 1 ∧
        evs'.getLast? = some (WEvent.reported ReportMsg.finished) := by
  intro launches
  induction launches with
  | nil => intro recvs idx evs evs' rest h; rw [outerLoop] at h; cases h
  | cons b bs ih =>
      intro recvs idx evs evs' rest h
      cases b
      · rw [outerLoop] at h
        obtain ⟨pre, hpre, hnot, hcnt, hlast⟩ := ih recvs idx _ evs' rest h
        refine ⟨pre, hpre, hnot, ?_, hlast⟩
        rw [hcnt, finRepCount_append]
        simp [finRepCount]
      · rw [outerLoop] at h
        cases hii : innerLoop env RESTART_LOOPS recvs idx (evs ++ [WEvent.launched_ok]) with
        | finished evs0 recvs0 =>
            rw [hii] at h
            cases h
            obtain ⟨pre, hpre, hnot, hcnt, hlast⟩ :=
              innerLoop_finished env RESTART_LOOPS recvs idx _ _ _ hii
            refine ⟨pre, hpre, hnot, ?_, hlast⟩
            rw [hcnt, finRepCount_append]
            simp [finRepCount]
        | blocked evs0 => rw [hii] at h; cases h
        | loops_done evs0 recvs0 idx0 =>
            rw [hii] at h
            obtain ⟨preA, hpreA, hnotA, hcntA⟩ :=
              innerLoop_loops_done env RESTART_LOOPS recvs idx _ _ _ _ hii
            obtain ⟨preB, hpreB, hnotB, hcntB, hlast⟩ := ih recvs0 idx0 evs0 evs' rest h
            refine ⟨preA ++ preB, ?_, ?_, ?_, hlast⟩
            · rw [hpreA, hpreB, List.append_assoc]
            · simp [hnotA, hnotB]
            · rw [hcntB, hcntA, finRepCount_append]
              simp [finRepCount]

lemma aggStep_finished_count (st : AggState) (m : ReportMsg) :
    (aggStep st m).finished_count =
      st.finished_count + countFinished [m] := by
  cases m <;> simp [aggStep, countFinished, List.countP_cons]

lemma aggRun_reaches (n : Nat) :
    ∀ msgs st, st.finished_count ≤ n →
      n ≤ countFinished msgs + st.finished_count →
      ∃ consumed rest st', msgs = consumed ++ rest ∧
        aggRun n msgs st = some (st', rest) ∧
        st'.finished_count = n ∧
        countFinished consumed + st.finished_count = n := by
  intro msgs
  induction msgs with
  | nil =>
      intro st h1 h2
      simp only [countFinished, List.countP_nil, Nat.zero_add] at h2
      have heq : st.finished_count = n := le_antisymm h1 h2
      refine ⟨[], [], st, rfl, ?_, heq, by simp [countFinished, heq]⟩
      rw [aggRun, if_neg (by omega)]
  | cons m rest ih =>
      intro st h1 h2
      by_cases hlt : st.finished_count < n
      · have hstep := aggStep_finished_count st m
        have h1' : (aggStep st m).finished_count ≤ n := by
          rw [hstep]
          cases m <;> simp [countFinished, List.countP_cons] <;> omega
        have h2' : n ≤ countFinished rest + (aggStep st m).finished_count := by
          rw [hstep]
          simp only [countFinished, List.countP_cons] at h2 ⊢
          omega
        obtain ⟨consumed, rest', st', heq, hrun, hfc, hcount⟩ := ih (aggStep st m) h1' h2'
        refine ⟨m :: consumed, rest', st', by simp [heq], ?_, hfc, ?_⟩
        · rw [aggRun, if_pos hlt]
          exact hrun
        · rw [hstep] at hcount
          simp only [countFinished, List.countP_cons, List.countP_nil] at hcount ⊢
          omega
      · have heq : st.finished_count = n := le_antisymm h1 (le_of_not_lt hlt)
        refine ⟨[], m :: rest, st, rfl, ?_, heq, by simp [countFinished, heq]⟩
        rw [aggRun, if_neg hlt]

/-- C4: the producer pushes exactly one terminate-sentinel per worker after
the enumeration; a finishing worker pushes exactly one worker-finished
sentinel, as its last action, having consumed the task queue exactly up
through its first sentinel; and the aggregation loop consumes report
messages until it has observed exactly `n` worker-finished sentinels —
never more — and then terminates (after which the processes are joined in
straight-line code). -/
theorem C4_sentinel_correctness (ledger : LedgerFile)
    (listings : OJName → List ListingStep) (n : Nat) (env : WorkerEnv)
    (launches : List Bool) (recvs : List RecvOutcome) (msgs : List ReportMsg)
    (hnr : ∀ oj, raises (listings oj) = false)
    (hms : n ≤ countFinished msgs) :
    countSentinels (producerRun ledger listings n).taskMsgs = n ∧
    (∀ evs rest, workerRun env launches recvs = .finished evs rest →
      finRepCount evs = 1 ∧
      evs.getLast? = some (WEvent.reported ReportMsg.finished) ∧
      ∃ pre, recvs = pre ++ RecvOutcome.ok none :: rest ∧
        RecvOutcome.ok none ∉ pre) ∧
    (∃ consumed rest st', msgs = consumed ++ rest ∧
      aggRun n msgs aggInit = some (st', rest) ∧
      st'.finished_count = n ∧ countFinished consumed = n) := by
  have hc : crashes listings judgeOrder = false := by
    simp only [crashes, List.any_eq_false]
    intro oj _
    simp [hnr oj]
  refine ⟨?_, ?_, ?_⟩
  · rw [producerRun_spec]
    simp [hc, countSentinels, List.countP_replicate, Function.comp_def]
  · intro evs rest h
    obtain ⟨pre, hpre, hnot, hcnt, hlast⟩ :=
      outerLoop_finished env launches recvs 0 [] evs rest h
    refine ⟨?_, hlast, pre, hpre, hnot⟩
    rw [hcnt]
    simp [finRepCount]
  · obtain ⟨consumed, rest, st', heq, hrun, hfc, hcount⟩ :=
      aggRun_reaches n msgs aggInit (by simp [aggInit]) (by simp [aggInit]; omega)
    exact ⟨consumed, rest, st', heq, hrun, hfc, by simpa [aggInit] using hcount⟩

/-! ### Single worker steps -/

lemma innerLoop_step_err (env : WorkerEnv) (k : Nat) (rest : List RecvOutcome)
    (idx : Nat) (evs : List WEvent) :
    innerLoop env (k + 1) (RecvOutcome.err :: rest) idx evs =
      innerLoop env k rest idx (evs ++ [WEvent.slept]) := rfl

lemma innerLoop_step_sentinel (env : WorkerEnv) (k : Nat)
    (rest : List RecvOutcome) (idx : Nat) (evs : List WEvent) :
    innerLoop env (k + 1) (RecvOutcome.ok none :: rest) idx evs =
      .finished (evs ++ [WEvent.reported ReportMsg.finished]) rest := rfl

lemma innerLoop_step_task_ok (env : WorkerEnv) (k : Nat) (p : Problem)
    (rest : List RecvOutcome) (idx : Nat) (evs : List WEvent)
    (data : Nat) (desc : String) (h : env.extract p = .ok data desc) :
    innerLoop env (k + 1) (RecvOutcome.ok (some p) :: rest) idx evs =
      innerLoop env k rest (idx + 1) (evs ++ successEvents env idx p data desc) := by
  rw [innerLoop, h]

lemma innerLoop_step_task_err (env : WorkerEnv) (k : Nat) (p : Problem)
    (rest : List RecvOutcome) (idx : Nat) (evs : List WEvent)
    (h : env.extract p = .err) :
    innerLoop env (k + 1) (RecvOutcome.ok (some p) :: rest) idx evs =
      innerLoop env k rest idx (evs ++ [WEvent.task_failed p]) := by
  rw [innerLoop, h]

/-- C7: with one worker, tasks `[A, B, C]` and extraction failing only on
`B`, the failure is logged with the task identity, `B` yields no completed
record and is not retried; the run continues, and the resulting ledger
holds exactly the records of `A` and `C` in completion order while the
aggregator observes exactly one worker-finished sentinel. -/
theorem C7_failed_task_dropped (A B C : Problem) (env : WorkerEnv)
    (dA dC : Nat) (sA sC : String)
    (hA : env.extract A = .ok dA sA) (hB : env.extract B = .err)
    (hC : env.extract C = .ok dC sC) :
    workerRun env [true]
        [RecvOutcome.ok (some A), RecvOutcome.ok (some B),
         RecvOutcome.ok (some C), RecvOutcome.ok none] =
      .finished (scenarioEvents env A B C dA dC sA sC) [] ∧
    WEvent.task_failed B ∈ scenarioEvents env A B C dA dC sA sC ∧
    (∀ ip d, WEvent.reported (ReportMsg.record B ip d) ∉
        scenarioEvents env A B C dA dC sA sC) ∧
    aggRun 1 (reportsOf (scenarioEvents env A B C dA dC sA sC)) aggInit =
      some (⟨[⟨A.oj, A.contest_id, A.problem_id,
                "images/" ++ (env.names 0 ++ ".png"), env.fmtMd sA⟩,
              ⟨C.oj, C.contest_id, C.problem_id,
                "images/" ++ (env.names 1 ++ ".png"), env.fmtMd sC⟩],
             0, 2, 1⟩, []) := by
  have hBA : B ≠ A := by
    intro he
    rw [he, hA] at hB
    cases hB
  have hBC : B ≠ C := by
    intro he
    rw [he, hC] at hB
    cases hB
  refine ⟨?_, ?_, ?_, ?_⟩
  · have h1 : innerLoop env RESTART_LOOPS
        [RecvOutcome.ok (some A), RecvOutcome.ok (some B),
         RecvOutcome.ok (some C), RecvOutcome.ok none] 0 [WEvent.launched_ok] =
        .finished (scenarioEvents env A B C dA dC sA sC) [] := by
      rw [show RESTART_LOOPS = 99 + 1 from rfl,
        innerLoop_step_task_ok env 99 A _ 0 _ dA sA hA,
        show (99 : Nat) = 98 + 1 from rfl,
        innerLoop_step_task_err env 98 B _ 1 _ hB,
        show (98 : Nat) = 97 + 1 from rfl,
        innerLoop_step_task_ok env 97 C _ 1 _ dC sC hC,
        show (97 : Nat) = 96 + 1 from rfl,
        innerLoop_step_sentinel]
      simp [scenarioEvents, List.append_assoc]
    simp only [workerRun, outerLoop, List.nil_append, h1]
  · simp [scenarioEvents]
  · intro ip d
    simp [scenarioEvents, successEvents, hBA, hBC]
  · simp [scenarioEvents, successEvents, reportsOf, aggRun, aggStep, aggInit]

lemma innerLoop_all_ok (env : WorkerEnv) :
    ∀ (ts : List Problem) (rest : List RecvOutcome) (idx : Nat) (evs : List WEvent),
      (∀ p ∈ ts, env.extract p ≠ ExtractOutcome.err) →
      ∃ evs', innerLoop env ts.length
          (ts.map (fun p => RecvOutcome.ok (some p)) ++ rest) idx evs =
        .loops_done (evs ++ evs' ++ [WEvent.restarting]) rest (idx + ts.length) ∧
        launchedCount evs' = 0 ∧ restartCount evs' = 0 := by
  intro ts
  induction ts with
  | nil =>
      intro rest idx evs _
      refine ⟨[], ?_, rfl, rfl⟩
      rw [List.length_nil, List.map_nil, List.nil_append, innerLoop]
      simp
  | cons p ps ih =>
      intro rest idx evs h
      obtain ⟨d, s, hd⟩ : ∃ d s, env.extract p = .ok d s := by
        cases hx : env.extract p with
        | err => exact absurd hx (h p (by simp))
        | ok d s => exact ⟨d, s, rfl⟩
      obtain ⟨evs', heq, h1, h2⟩ := ih rest (idx + 1)
        (evs ++ successEvents env idx p d s) (fun q hq => h q (by simp [hq]))
      refine ⟨successEvents env idx p d s ++ evs', ?_, ?_, ?_⟩
      · rw [List.length_cons, List.map_cons, List.cons_append,
          innerLoop_step_task_ok env ps.length p _ idx evs d s hd, heq]
        have hl : evs ++ successEvents env idx p d s ++ evs' =
            evs ++ (successEvents env idx p d s ++ evs') := by
          rw [List.append_assoc]
        rw [hl]
        have hn : idx + 1 + ps.length = idx + (ps.length + 1) := by omega
        rw [hn]
      · simp only [launchedCount, List.countP_append] at h1 ⊢
        simp [successEvents, h1]
      · simp only [restartCount, List.countP_append] at h2 ⊢
        simp [successEvents, h2]

/-- C6: a worker that completes exactly `RESTART_LOOPS` loop iterations
(here: that many successfully extracted tasks) tears down and relaunches
its browser session exactly once — two successful launches, one
restart-limit teardown — and the `RESTART_LOOPS + 1`-th task is received
and processed after the relaunch, its completed record pushed, before the
worker finishes on the sentinel. -/
theorem C6_restart_boundary (env : WorkerEnv) (ts : List Problem) (q : Problem)
    (dq : Nat) (sq : String)
    (hlen : ts.length = RESTART_LOOPS)
    (hok : ∀ p ∈ ts, env.extract p ≠ ExtractOutcome.err)
    (hq : env.extract q = .ok dq sq) :
    ∃ evs, workerRun env [true, true]
        (ts.map (fun p => RecvOutcome.ok (some p)) ++
          [RecvOutcome.ok (some q), RecvOutcome.ok none]) = .finished evs [] ∧
      launchedCount evs = 2 ∧
      restartCount evs = 1 ∧
      WEvent.reported (ReportMsg.record q
        ("images/" ++ (env.names RESTART_LOOPS ++ ".png")) (env.fmtMd sq)) ∈ evs := by
  obtain ⟨evs', hinner, h1, h2⟩ := innerLoop_all_ok env ts
    [RecvOutcome.ok (some q), RecvOutcome.ok none] 0 [WEvent.launched_ok] hok
  rw [hlen] at hinner
  have hstep2 : innerLoop env RESTART_LOOPS
      [RecvOutcome.ok (some q), RecvOutcome.ok none] (0 + RESTART_LOOPS)
      (([WEvent.launched_ok] ++ evs' ++ [WEvent.restarting]) ++ [WEvent.launched_ok]) =
      .finished ((([WEvent.launched_ok] ++ evs' ++ [WEvent.restarting]) ++ [WEvent.launched_ok])
        ++ successEvents env (0 + RESTART_LOOPS) q dq sq
        ++ [WEvent.reported ReportMsg.finished]) [] := by
    rw [show RESTART_LOOPS = 99 + 1 from rfl,
      innerLoop_step_task_ok env 99 q _ _ _ dq sq hq,
      show (99 : Nat) = 98 + 1 from rfl, innerLoop_step_sentinel]
  refine ⟨(([WEvent.launched_ok] ++ evs' ++ [WEvent.restarting]) ++ [WEvent.launched_ok])
      ++ successEvents env (0 + RESTART_LOOPS) q dq sq
      ++ [WEvent.reported ReportMsg.finished], ?_, ?_, ?_, ?_⟩
  · simp only [workerRun, outerLoop, List.nil_append, hinner, hstep2]
  · simp only [launchedCount, List.countP_append] at h1 ⊢
    simp [successEvents, h1, launchedCount]
  · simp only [restartCount, List.countP_append] at h2 ⊢
    simp [successEvents, h2, restartCount]
  · simp [successEvents]

/-! ### Launch retries (C9) -/

lemma innerLoop_frame (env : WorkerEnv) :
    ∀ fuel recvs idx pre evs,
      innerLoop env fuel recvs idx (pre ++ evs) =
        InnerResult.prepend pre (innerLoop env fuel recvs idx evs) := by
  intro fuel
  induction fuel with
  | zero =>
      intro recvs idx pre evs
      simp [innerLoop, InnerResult.prepend, List.append_assoc]
  | succ k ih =>
      intro recvs idx pre evs
      match recvs with
      | [] => simp [innerLoop, InnerResult.prepend]
      | RecvOutcome.err :: rs =>
          simp only [innerLoop_step_err, List.append_assoc, ih]
      | RecvOutcome.ok none :: rs =>
          simp only [innerLoop_step_sentinel, InnerResult.prepend, List.append_assoc]
      | RecvOutcome.ok (some p) :: rs =>
          cases hx : env.extract p with
          | err =>
              rw [innerLoop_step_task_err env k p rs idx _ hx,
                innerLoop_step_task_err env k p rs idx evs hx,
                List.append_assoc, ih]
          | ok d s =>
              rw [innerLoop_step_task_ok env k p rs idx _ d s hx,
                innerLoop_step_task_ok env k p rs idx evs d s hx,
                List.append_assoc, ih]

lemma outerLoop_frame (env : WorkerEnv) :
    ∀ launches recvs idx pre evs,
      outerLoop env launches recvs idx (pre ++ evs) =
        WorkerResult.prepend pre (outerLoop env launches recvs idx evs) := by
  intro launches
  induction launches with
  | nil =>
      intro recvs idx pre evs
      simp [outerLoop, WorkerResult.prepend]
  | cons b bs ih =>
      intro recvs idx pre evs
      cases b
      · rw [outerLoop, outerLoop, List.append_assoc, ih]
      · rw [outerLoop, outerLoop, List.append_assoc, innerLoop_frame]
        cases hii : innerLoop env RESTART_LOOPS recvs idx (evs ++ [WEvent.launched_ok]) with
        | finished e r => simp [InnerResult.prepend, WorkerResult.prepend]
        | blocked e => simp [InnerResult.prepend, WorkerResult.prepend]
        | loops_done e r i => simp [InnerResult.prepend, WorkerResult.prepend, ih]

lemma outerLoop_launch_failures (env : WorkerEnv) :
    ∀ (k : Nat) (launches : List Bool) (recvs : List RecvOutcome)
      (idx : Nat) (evs : List WEvent),
      outerLoop env (List.replicate k false ++ launches) recvs idx evs =
        outerLoop env launches recvs idx
          (evs ++ List.replicate k WEvent.launch_failed) := by
  intro k
  induction k with
  | zero => intro launches recvs idx evs; simp
  | succ k ih =>
      intro launches recvs idx evs
      rw [List.replicate_succ, List.cons_append, outerLoop, ih]
      congr 1
      rw [List.append_assoc, List.replicate_succ]
      rfl

/-- C9: when the session launch fails, the worker retries the launch
immediately — no sleep, no task consumption, no report-queue traffic —
with no cap: for every number `k` of consecutive launch failures, the run
is the run with those failures removed, prefixed by `k` launch-failure log
events and nothing else. -/
theorem C9_launch_retry_unbounded (env : WorkerEnv) (k : Nat)
    (launches : List Bool) (recvs : List RecvOutcome) :
    workerRun env (List.replicate k false ++ launches) recvs =
      WorkerResult.prepend (List.replicate k WEvent.launch_failed)
        (workerRun env launches recvs) ∧
    WEvent.slept ∉ List.replicate k WEvent.launch_failed ∧
    (∀ m : ReportMsg, WEvent.reported m ∉ List.replicate k WEvent.launch_failed) := by
  refine ⟨?_, ?_, ?_⟩
  · rw [workerRun, outerLoop_launch_failures, List.nil_append, workerRun,
      show List.replicate k WEvent.launch_failed =
        List.replicate k WEvent.launch_failed ++ [] from (List.append_nil _).symm,
      outerLoop_frame]
    simp
  · intro hmem
    have := List.eq_of_mem_replicate hmem
    cases this
  · intro m hmem
    have := List.eq_of_mem_replicate hmem
    cases this

/-! ### Image filenames (C8) -/

lemma savedNames_append (a b : List WEvent) :
    savedNames (a ++ b) = savedNames a ++ savedNames b := by
  simp [savedNames]

lemma nameSeq_cons (env : WorkerEnv) (idx k : Nat) :
    nameSeq env idx (k + 1) = (env.names idx ++ ".png") :: nameSeq env (idx + 1) k := by
  simp [nameSeq, List.range'_succ]

lemma nameSeq_add (env : WorkerEnv) (idx a b : Nat) :
    nameSeq env idx (a + b) = nameSeq env idx a ++ nameSeq env (idx + a) b := by
  rw [nameSeq, nameSeq, nameSeq, ← List.map_append, List.range'_append_1,
    Nat.add_comm b a]

lemma savedOK_nil_block (env : WorkerEnv) (idx : Nat) (evs blk : List WEvent)
    (r : InnerResult) (hb : savedNames blk = []) :
    savedOK env idx (evs ++ blk) r → savedOK env idx evs r := by
  cases r <;> simp [savedOK, savedNames_append, hb]

lemma savedOK_shift (env : WorkerEnv) (idx : Nat) (evs : List WEvent)
    (p : Problem) (d : Nat) (s : String) (r : InnerResult) :
    savedOK env (idx + 1) (evs ++ successEvents env idx p d s) r →
      savedOK env idx evs r := by
  have hs : savedNames (evs ++ successEvents env idx p d s) =
      savedNames evs ++ [env.names idx ++ ".png"] := by
    rw [savedNames_append]
    simp [savedNames, successEvents]
  cases r with
  | finished evs' rest =>
      rintro ⟨k, hk⟩
      exact ⟨k + 1, by rw [hk, hs, nameSeq_cons, List.append_assoc]; rfl⟩
  | blocked evs' =>
      rintro ⟨k, hk⟩
      exact ⟨k + 1, by rw [hk, hs, nameSeq_cons, List.append_assoc]; rfl⟩
  | loops_done evs' rest idx' =>
      rintro ⟨k, hk1, hk2⟩
      refine ⟨k + 1, by omega, ?_⟩
      rw [hk2, hs, nameSeq_cons, List.append_assoc]
      rfl

lemma innerLoop_savedNames (env : WorkerEnv) :
    ∀ fuel recvs idx evs,
      savedOK env idx evs (innerLoop env fuel recvs idx evs) := by
  intro fuel
  induction fuel with
  | zero =>
      intro recvs idx evs
      rw [innerLoop]
      exact ⟨0, rfl, by simp [savedNames_append, savedNames, nameSeq]⟩
  | succ k ih =>
      intro recvs idx evs
      match recvs with
      | [] =>
          rw [innerLoop]
          exact ⟨0, by simp [nameSeq]⟩
      | RecvOutcome.err :: rs =>
          rw [innerLoop_step_err]
          exact savedOK_nil_block env idx evs [WEvent.slept] _ (by simp [savedNames])
            (ih rs idx _)
      | RecvOutcome.ok none :: rs =>
          rw [innerLoop_step_sentinel]
          exact ⟨0, by simp [savedNames_append, savedNames, nameSeq]⟩
      | RecvOutcome.ok (some p) :: rs =>
          cases hx : env.extract p with
          | err =>
              rw [innerLoop_step_task_err env k p rs idx evs hx]
              exact savedOK_nil_block env idx evs [WEvent.task_failed p] _
                (by simp [savedNames]) (ih rs idx _)
          | ok d s =>
              rw [innerLoop_step_task_ok env k p rs idx evs d s hx]
              exact savedOK_shift env idx evs p d s _ (ih rs (idx + 1) _)

lemma outerLoop_savedNames (env : WorkerEnv) :
    ∀ launches recvs idx evs,
      savedOKW env idx evs (outerLoop env launches recvs idx evs) := by
  intro launches
  induction launches with
  | nil =>
      intro recvs idx evs
      rw [outerLoop]
      exact ⟨0, by simp [nameSeq]⟩
  | cons b bs ih =>
      intro recvs idx evs
      have hsf : savedNames (evs ++ [WEvent.launch_failed]) = savedNames evs := by
        simp [savedNames_append, savedNames]
      have hso : savedNames (evs ++ [WEvent.launched_ok]) = savedNames evs := by
        simp [savedNames_append, savedNames]
      cases b
      · rw [outerLoop]
        have h := ih recvs idx (evs ++ [WEvent.launch_failed])
        cases hre : outerLoop env bs recvs idx (evs ++ [WEvent.launch_failed]) with
        | finished e r =>
            rw [hre] at h
            obtain ⟨k, hk⟩ := h
            rw [hsf] at hk
            exact ⟨k, hk⟩
        | blocked e =>
            rw [hre] at h
            obtain ⟨k, hk⟩ := h
            rw [hsf] at hk
            exact ⟨k, hk⟩
      · rw [outerLoop]
        have hin := innerLoop_savedNames env RESTART_LOOPS recvs idx
          (evs ++ [WEvent.launched_ok])
        cases hii : innerLoop env RESTART_LOOPS recvs idx (evs ++ [WEvent.launched_ok]) with
        | finished e r =>
            rw [hii] at hin
            obtain ⟨k, hk⟩ := hin
            rw [hso] at hk
            exact ⟨k, hk⟩
        | blocked e =>
            rw [hii] at hin
            obtain ⟨k, hk⟩ := hin
            rw [hso] at hk
            exact ⟨k, hk⟩
        | loops_done e r i =>
            rw [hii] at hin
            obtain ⟨k1, hk1, hk2⟩ := hin
            rw [hso] at hk2
            have hout := ih r i e
            show savedOKW env idx evs (outerLoop env bs r i e)
            cases hro : outerLoop env bs r i e with
            | finished e' r' =>
                rw [hro] at hout
                obtain ⟨k2, hk3⟩ := hout
                refine ⟨k1 + k2, ?_⟩
                rw [hk3, hk2, hk1, nameSeq_add env idx k1 k2, List.append_assoc]
            | blocked e' =>
                rw [hro] at hout
                obtain ⟨k2, hk3⟩ := hout
                refine ⟨k1 + k2, ?_⟩
                rw [hk3, hk2, hk1, nameSeq_add env idx k1 k2, List.append_assoc]

lemma workerRun_savedNames (env : WorkerEnv) (launches : List Bool)
    (recvs : List RecvOutcome) :
    ∃ k, savedNames (workerRun env launches recvs).events = nameSeq env 0 k := by
  have h := outerLoop_savedNames env launches recvs 0 []
  cases hr : outerLoop env launches recvs 0 [] with
  | finished e r =>
      rw [hr] at h
      obtain ⟨k, hk⟩ := h
      refine ⟨k, ?_⟩
      rw [workerRun, hr]
      show savedNames e = nameSeq env 0 k
      rw [hk]
      simp [savedNames]
  | blocked e =>
      rw [hr] at h
      obtain ⟨k, hk⟩ := h
      refine ⟨k, ?_⟩
      rw [workerRun, hr]
      show savedNames e = nameSeq env 0 k
      rw [hk]
      simp [savedNames]

lemma append_png_injective : Function.Injective (fun s : String => s ++ ".png") := by
  intro a b h
  have hd := congrArg String.data h
  simp only [String.data_append] at hd
  exact String.ext (List.append_cancel_right hd)

lemma nameSeq_nodup (env : WorkerEnv) (hinj : Function.Injective env.names)
    (idx k : Nat) : (nameSeq env idx k).Nodup := by
  refine List.Nodup.map ?_ (List.nodup_range' idx k)
  intro a b h
  exact hinj (append_png_injective h)

/-- C8: a successfully extracted task yields exactly two effects — the
image, quantized to a fixed 256-color palette with `FASTOCTREE` and no
dithering, is saved under a random filename ending in `.png`, and then a
completed record with the normalized description and the relative path
`images/<name>.png` is pushed; the serialized ledger line of that record
carries exactly the five fields; and across any run the saved filenames
are collision-free whenever the name supply is injective. -/
theorem C8_success_record (env : WorkerEnv) (p : Problem) (d : Nat) (s : String)
    (k idx : Nat) (rest : List RecvOutcome) (evs : List WEvent)
    (launches : List Bool) (recvs : List RecvOutcome)
    (hp : env.extract p = .ok d s) (hinj : Function.Injective env.names) :
    innerLoop env (k + 1) (RecvOutcome.ok (some p) :: rest) idx evs =
      innerLoop env k rest (idx + 1) (evs ++
        [WEvent.saved (env.names idx ++ ".png")
           (PImage.quantized (PImage.rgb (PImage.raw d)) 256
             QuantMethod.fastoctree DitherMode.nodither),
         WEvent.reported (ReportMsg.record p
           ("images/" ++ (env.names idx ++ ".png")) (env.fmtMd s))]) ∧
    (∀ st : AggState,
      (aggStep st (ReportMsg.record p
          ("images/" ++ (env.names idx ++ ".png")) (env.fmtMd s))).ledger =
        st.ledger ++ [⟨p.oj, p.contest_id, p.problem_id,
          "images/" ++ (env.names idx ++ ".png"), env.fmtMd s⟩]) ∧
    (savedNames (workerRun env launches recvs).events).Nodup := by
  refine ⟨?_, fun st => rfl, ?_⟩
  · rw [innerLoop_step_task_ok env k p rest idx evs d s hp]
    rfl
  · obtain ⟨m, hm⟩ := workerRun_savedNames env launches recvs
    rw [hm]
    exact nameSeq_nodup env hinj 0 m

/-! ### Save-before-report ordering (C10) -/

lemma sbr_append (evs blk : List WEvent)
    (h1 : savedBeforeReported evs) (h2 : savedBeforeReported blk) :
    savedBeforeReported (evs ++ blk) := by
  intro i p ip dsc hi
  by_cases hlt : i < evs.length
  · rw [List.getElem?_append_left hlt] at hi
    obtain ⟨j, fname, img, hj, hget, hip⟩ := h1 i p ip dsc hi
    exact ⟨j, fname, img, hj, by rw [List.getElem?_append_left (by omega)]; exact hget, hip⟩
  · have hle : evs.length ≤ i := by omega
    rw [List.getElem?_append_right hle] at hi
    obtain ⟨j, fname, img, hj, hget, hip⟩ := h2 (i - evs.length) p ip dsc hi
    refine ⟨evs.length + j, fname, img, by omega, ?_, hip⟩
    rw [List.getElem?_append_right (by omega)]
    simpa using hget

lemma sbr_nil : savedBeforeReported [] := by
  intro i p ip dsc hi
  simp at hi

lemma sbr_single (e : WEvent)
    (h : ∀ p ip dsc, e ≠ WEvent.reported (ReportMsg.record p ip dsc)) :
    savedBeforeReported [e] := by
  intro i p ip dsc hi
  match i with
  | 0 =>
      simp only [List.getElem?_cons_zero, Option.some.injEq] at hi
      exact absurd hi (h p ip dsc)
  | n + 1 => simp at hi

lemma sbr_successEvents (env : WorkerEnv) (idx : Nat) (p : Problem)
    (d : Nat) (s : String) :
    savedBeforeReported (successEvents env idx p d s) := by
  intro i q ip dsc hi
  match i with
  | 0 => simp [successEvents] at hi
  | 1 =>
      simp only [successEvents, List.getElem?_cons_succ, List.getElem?_cons_zero,
        Option.some.injEq, WEvent.reported.injEq, ReportMsg.record.injEq] at hi
      refine ⟨0, env.names idx ++ ".png",
        PImage.quantized (PImage.rgb (PImage.raw d)) 256
          QuantMethod.fastoctree DitherMode.nodither, by omega, rfl, ?_⟩
      exact hi.2.1.symm
  | n + 2 => simp [successEvents] at hi

lemma innerLoop_sbr (env : WorkerEnv) :
    ∀ fuel recvs idx evs res,
      innerLoop env fuel recvs idx evs = res →
      savedBeforeReported evs →
      (∀ evs' rest, res = .finished evs' rest → savedBeforeReported evs') ∧
      (∀ evs', res = .blocked evs' → savedBeforeReported evs') ∧
      (∀ evs' rest idx', res = .loops_done evs' rest idx' → savedBeforeReported evs') := by
  intro fuel
  induction fuel with
  | zero =>
      intro recvs idx evs res hres hevs
      rw [innerLoop] at hres
      subst hres
      refine ⟨(by intro _ _ h; cases h), (by intro _ h; cases h), ?_⟩
      intro evs' rest idx' h
      cases h
      exact sbr_append _ _ hevs (sbr_single _ (by intro _ _ _ h; cases h))
  | succ k ih =>
      intro recvs idx evs res hres hevs
      match recvs with
      | [] =>
          rw [innerLoop] at hres
          subst hres
          refine ⟨(by intro _ _ h; cases h), ?_, (by intro _ _ _ h; cases h)⟩
          intro evs' h
          cases h
          exact hevs
      | RecvOutcome.err :: rs =>
          rw [innerLoop_step_err] at hres
          exact ih rs idx _ res hres
            (sbr_append _ _ hevs (sbr_single _ (by intro _ _ _ h; cases h)))
      | RecvOutcome.ok none :: rs =>
          rw [innerLoop_step_sentinel] at hres
          subst hres
          refine ⟨?_, (by intro _ h; cases h), (by intro _ _ _ h; cases h)⟩
          intro evs' rest h
          cases h
          exact sbr_append _ _ hevs (sbr_single _ (by intro _ _ _ h; cases h))
      | RecvOutcome.ok (some p) :: rs =>
          cases hx : env.extract p with
          | err =>
              rw [innerLoop_step_task_err env k p rs idx evs hx] at hres
              exact ih rs idx _ res hres
                (sbr_append _ _ hevs (sbr_single _ (by intro _ _ _ h; cases h)))
          | ok d s =>
              rw [innerLoop_step_task_ok env k p rs idx evs d s hx] at hres
              exact ih rs (idx + 1) _ res hres
                (sbr_append _ _ hevs (sbr_successEvents env idx p d s))

lemma outerLoop_sbr (env : WorkerEnv) :
    ∀ launches recvs idx evs,
      savedBeforeReported evs →
      savedBeforeReported (outerLoop env launches recvs idx evs).events := by
  intro launches
  induction launches with
  | nil =>
      intro recvs idx evs hevs
      rw [outerLoop]
      exact hevs
  | cons b bs ih =>
      intro recvs idx evs hevs
      cases b
      · rw [outerLoop]
        exact ih recvs idx _
          (sbr_append _ _ hevs (sbr_single _ (by intro _ _ _ h; cases h)))
      · rw [outerLoop]
        have hgrow := sbr_append _ _ hevs
          (sbr_single (WEvent.launched_ok) (by intro _ _ _ h; cases h))
        have hall := innerLoop_sbr env RESTART_LOOPS recvs idx
          (evs ++ [WEvent.launched_ok]) _ rfl hgrow
        cases hii : innerLoop env RESTART_LOOPS recvs idx (evs ++ [WEvent.launched_ok]) with
        | finished e r =>
            rw [hii] at hall
            exact hall.1 e r rfl
        | blocked e =>
            rw [hii] at hall
            exact hall.2.1 e rfl
        | loops_done e r i =>
            rw [hii] at hall
            exact ih r i e (hall.2.2 e r i rfl)

lemma aggRun_ledger_source (n : Nat) :
    ∀ msgs st st' rest, aggRun n msgs st = some (st', rest) →
      ∀ r ∈ st'.ledger, r ∈ st.ledger ∨
        ∃ p ip dsc, ReportMsg.record p ip dsc ∈ msgs ∧
          r = ⟨p.oj, p.contest_id, p.problem_id, ip, dsc⟩ := by
  intro msgs
  induction msgs with
  | nil =>
      intro st st' rest h r hr
      rw [aggRun] at h
      by_cases hlt : st.finished_count < n
      · rw [if_pos hlt] at h
        cases h
      · rw [if_neg hlt] at h
        cases h
        exact Or.inl hr
  | cons m ms ih =>
      intro st st' rest h r hr
      rw [aggRun] at h
      by_cases hlt : st.finished_count < n
      · rw [if_pos hlt] at h
        rcases ih (aggStep st m) st' rest h r hr with hin | ⟨p, ip, dsc, hm, he⟩
        · cases m with
          | record q ipq dq =>
              simp only [aggStep, List.mem_append, List.mem_singleton] at hin
              rcases hin with hin | hin
              · exact Or.inl hin
              · exact Or.inr ⟨q, ipq, dq, by simp, hin⟩
          | finished => exact Or.inl hin
          | delta j => exact Or.inl hin
        · exact Or.inr ⟨p, ip, dsc, by simp [hm], he⟩
      · rw [if_neg hlt] at h
        cases h
        exact Or.inl hr

/-- C10: in every worker run, each completed-record push is preceded by
the save of the image file its path names; consequently whatever record
the aggregator appends to `meta.jsonl`, the corresponding image file was
already written to the images directory by the time of the append. -/
theorem C10_image_saved_before_record (env : WorkerEnv) (launches : List Bool)
    (recvs : List RecvOutcome) :
    savedBeforeReported (workerRun env launches recvs).events ∧
    (∀ n st' rest,
      aggRun n (reportsOf (workerRun env launches recvs).events) aggInit =
        some (st', rest) →
      ∀ r ∈ st'.ledger, ∃ fname img,
        WEvent.saved fname img ∈ (workerRun env launches recvs).events ∧
        r.image_path = "images/" ++ fname) := by
  have hsbr : savedBeforeReported (workerRun env launches recvs).events :=
    outerLoop_sbr env launches recvs 0 [] sbr_nil
  refine ⟨hsbr, ?_⟩
  intro n st' rest hrun r hr
  rcases aggRun_ledger_source n _ aggInit st' rest hrun r hr with hin | ⟨p, ip, dsc, hm, he⟩
  · simp [aggInit] at hin
  · obtain ⟨e, he', hfe⟩ := List.mem_filterMap.mp hm
    have hev : e = WEvent.reported (ReportMsg.record p ip dsc) := by
      cases e <;> simp_all
    subst hev
    obtain ⟨i, hi⟩ := List.getElem?_of_mem he'
    obtain ⟨j, fname, img, hj, hget, hip⟩ := hsbr i p ip dsc hi
    refine ⟨fname, img, List.getElem?_mem hget, ?_⟩
    rw [he, hip]

/-- C3 witness: the amended statement at a concrete one-good-line-then-bad
ledger. -/
theorem C3_ledger_load_witness :
    LedgerLine.bad ∉ [LedgerLine.good .atcoder "abc001_a" (some "abc001")] ∧
    (loadLedger .missing = [] ∧
      loadLedger .unreadable = [] ∧
      loadLedger (.present ([LedgerLine.good .atcoder "abc001_a" (some "abc001")] ++
          LedgerLine.bad :: [])) =
        [LedgerLine.good .atcoder "abc001_a" (some "abc001")].filterMap lineTask) :=
  ⟨by decide,
   C3_ledger_load [LedgerLine.good .atcoder "abc001_a" (some "abc001")] [] (by decide)⟩

lemma witEnv_names_injective : Function.Injective witEnv.names := by
  intro a b h
  have h2 : List.replicate a 'a' = List.replicate b 'a' := by
    have := congrArg String.data h
    simpa [witEnv] using this
  have := congrArg List.length h2
  simpa using this

lemma failBEnv_names_injective : Function.Injective failBEnv.names := by
  intro a b h
  have h2 : List.replicate a 'a' = List.replicate b 'a' := by
    have := congrArg String.data h
    simpa [failBEnv] using this
  have := congrArg List.length h2
  simpa using this

/-- C2 witness: the durability statement at a concrete two-message run. -/
theorem C2_ledger_crash_safety_witness :
    (∀ st p ip d, (aggStep st (ReportMsg.record p ip d)).ledger =
        st.ledger ++ [⟨p.oj, p.contest_id, p.problem_id, ip, d⟩]) ∧
    ([ReportMsg.record pA "images/a.png" "d", ReportMsg.finished].foldl
        aggStep aggInit).ledger.length =
      countRecords [ReportMsg.record pA "images/a.png" "d", ReportMsg.finished] ∧
    (∀ r ∈ ([ReportMsg.record pA "images/a.png" "d", ReportMsg.finished].foldl
        aggStep aggInit).ledger, Record.toLine r ≠ LedgerLine.bad) ∧
    (∀ t ∈ ([ReportMsg.record pA "images/a.png" "d", ReportMsg.finished].foldl
        aggStep aggInit).ledger.map Record.task,
      some t ∉ (producerRun
        (.present (([ReportMsg.record pA "images/a.png" "d",
          ReportMsg.finished].foldl aggStep aggInit).ledger.map Record.toLine))
        c3Listings 1).taskMsgs) :=
  C2_ledger_crash_safety [ReportMsg.record pA "images/a.png" "d", ReportMsg.finished]
    c3Listings 1

/-- C5 witness: the dedup-filter statement at a concrete ledger and
listing. -/
theorem C5_dedup_filter_witness :
    (∀ t : Problem, (producerRun (.present c3Lines) c3Listings 1).taskMsgs.count (some t) =
        if t ∈ loadLedger (.present c3Lines) then 0
        else (enumerated c3Listings judgeOrder).count t) ∧
    (producerRun (.present c3Lines) c3Listings 1).reportMsgs =
      List.replicate (producedTasks (.present c3Lines) c3Listings).length
        (ReportMsg.delta 1) ∧
    (∀ t ∈ loadLedger (.present c3Lines),
      some t ∉ (producerRun (.present c3Lines) c3Listings 1).taskMsgs) :=
  C5_dedup_filter (.present c3Lines) c3Listings 1

/-- C4 witness: the sentinel protocol at one worker, one handled listing,
one finishing report stream. -/
theorem C4_sentinel_correctness_witness :
    (∀ oj, raises (c1ListingsHandled oj) = false) ∧
    1 ≤ countFinished [ReportMsg.finished] ∧
    (countSentinels (producerRun .missing c1ListingsHandled 1).taskMsgs = 1 ∧
    (∀ evs rest, workerRun witEnv [true] [RecvOutcome.ok none] = .finished evs rest →
      finRepCount evs = 1 ∧
      evs.getLast? = some (WEvent.reported ReportMsg.finished) ∧
      ∃ pre, [RecvOutcome.ok none] = pre ++ RecvOutcome.ok none :: rest ∧
        RecvOutcome.ok none ∉ pre) ∧
    (∃ consumed rest st', [ReportMsg.finished] = consumed ++ rest ∧
      aggRun 1 [ReportMsg.finished] aggInit = some (st', rest) ∧
      st'.finished_count = 1 ∧ countFinished consumed = 1)) :=
  ⟨(by intro oj; cases oj <;> rfl), (by decide),
   C4_sentinel_correctness .missing c1ListingsHandled 1 witEnv [true]
     [RecvOutcome.ok none] [ReportMsg.finished]
     (by intro oj; cases oj <;> rfl) (by decide)⟩

/-- C6 witness: the restart boundary at a concrete run of 100 successful
tasks followed by one more task and the sentinel. -/
theorem C6_restart_boundary_witness :
    (List.replicate RESTART_LOOPS pA).length = RESTART_LOOPS ∧
    (∀ p ∈ List.replicate RESTART_LOOPS pA,
      witEnv.extract p ≠ ExtractOutcome.err) ∧
    witEnv.extract pB = .ok 0 "" ∧
    (∃ evs, workerRun witEnv [true, true]
        ((List.replicate RESTART_LOOPS pA).map (fun p => RecvOutcome.ok (some p)) ++
          [RecvOutcome.ok (some pB), RecvOutcome.ok none]) = .finished evs [] ∧
      launchedCount evs = 2 ∧
      restartCount evs = 1 ∧
      WEvent.reported (ReportMsg.record pB
        ("images/" ++ (witEnv.names RESTART_LOOPS ++ ".png"))
        (witEnv.fmtMd "")) ∈ evs) :=
  ⟨by simp, (by intro p _; simp [witEnv]), rfl,
   C6_restart_boundary witEnv (List.replicate RESTART_LOOPS pA) pB 0 ""
     (by simp) (by intro p _; simp [witEnv]) rfl⟩

/-- C7 witness: the failure scenario at concrete tasks `[pA, pB, pC]` with
extraction failing exactly on `pB`. -/
theorem C7_failed_task_dropped_witness :
    failBEnv.extract pA = .ok 0 "" ∧
    failBEnv.extract pB = .err ∧
    failBEnv.extract pC = .ok 0 "" ∧
    (workerRun failBEnv [true]
        [RecvOutcome.ok (some pA), RecvOutcome.ok (some pB),
         RecvOutcome.ok (some pC), RecvOutcome.ok none] =
      .finished (scenarioEvents failBEnv pA pB pC 0 0 "" "") [] ∧
    WEvent.task_failed pB ∈ scenarioEvents failBEnv pA pB pC 0 0 "" "" ∧
    (∀ ip d, WEvent.reported (ReportMsg.record pB ip d) ∉
        scenarioEvents failBEnv pA pB pC 0 0 "" "") ∧
    aggRun 1 (reportsOf (scenarioEvents failBEnv pA pB pC 0 0 "" "")) aggInit =
      some (⟨[⟨pA.oj, pA.contest_id, pA.problem_id,
                "images/" ++ (failBEnv.names 0 ++ ".png"), failBEnv.fmtMd ""⟩,
              ⟨pC.oj, pC.contest_id, pC.problem_id,
                "images/" ++ (failBEnv.names 1 ++ ".png"), failBEnv.fmtMd ""⟩],
             0, 2, 1⟩, [])) :=
  ⟨by decide, by decide, by decide,
   C7_failed_task_dropped pA pB pC failBEnv 0 0 "" ""
     (by decide) (by decide) (by decide)⟩

/-- C8 witness: the success path at a concrete task and environment. -/
theorem C8_success_record_witness :
    witEnv.extract pA = .ok 0 "" ∧
    Function.Injective witEnv.names ∧
    (innerLoop witEnv (0 + 1) (RecvOutcome.ok (some pA) :: []) 0 [] =
      innerLoop witEnv 0 [] (0 + 1) ([] ++
        [WEvent.saved (witEnv.names 0 ++ ".png")
           (PImage.quantized (PImage.rgb (PImage.raw 0)) 256
             QuantMethod.fastoctree DitherMode.nodither),
         WEvent.reported (ReportMsg.record pA
           ("images/" ++ (witEnv.names 0 ++ ".png")) (witEnv.fmtMd ""))]) ∧
    (∀ st : AggState,
      (aggStep st (ReportMsg.record pA
          ("images/" ++ (witEnv.names 0 ++ ".png")) (witEnv.fmtMd ""))).ledger =
        st.ledger ++ [⟨pA.oj, pA.contest_id, pA.problem_id,
          "images/" ++ (witEnv.names 0 ++ ".png"), witEnv.fmtMd ""⟩]) ∧
    (savedNames (workerRun witEnv [true] [RecvOutcome.ok none]).events).Nodup) :=
  ⟨rfl, witEnv_names_injective,
   C8_success_record witEnv pA 0 "" 0 0 [] [] [true] [RecvOutcome.ok none]
     rfl witEnv_names_injective⟩

/-- C9 witness: three consecutive launch failures at a concrete
environment and queue. -/
theorem C9_launch_retry_unbounded_witness :
    workerRun witEnv (List.replicate 3 false ++ [true]) [RecvOutcome.ok none] =
      WorkerResult.prepend (List.replicate 3 WEvent.launch_failed)
        (workerRun witEnv [true] [RecvOutcome.ok none]) ∧
    WEvent.slept ∉ List.replicate 3 WEvent.launch_failed ∧
    (∀ m : ReportMsg, WEvent.reported m ∉ List.replicate 3 WEvent.launch_failed) :=
  C9_launch_retry_unbounded witEnv 3 [true] [RecvOutcome.ok none]

/-- C10 witness: the save-before-report invariant at a concrete run. -/
theorem C10_image_saved_before_record_witness :
    savedBeforeReported (workerRun witEnv [true] [RecvOutcome.ok none]).events ∧
    (∀ n st' rest,
      aggRun n (reportsOf (workerRun witEnv [true] [RecvOutcome.ok none]).events)
          aggInit = some (st', rest) →
      ∀ r ∈ st'.ledger, ∃ fname img,
        WEvent.saved fname img ∈ (workerRun witEnv [true] [RecvOutcome.ok none]).events ∧
        r.image_path = "images/" ++ fname) :=
  C10_image_saved_before_record witEnv [true] [RecvOutcome.ok none]

end FetchData
